import Mathlib

/-!
A verification development for the persistent-cookiejar serialization layer
(`serialize.go`).  The file-facing operations `save`, `load`, `mergeFrom`,
`writeTo`, `allPersistentEntries`, `lockNameFromPath` and the retry loop of
`lockFile` are embedded as Lean functions.  The in-memory store (`entry`,
`Jar.merge`, `Jar.deleteExpired`, the `byCanonicalHost` ordering) lives in
`jar.go`, which is not part of the sources at hand; those pieces are modelled
from the specification, as indicated on each definition.  Time instants are
modelled as integers, byte streams at the granularity at which the JSON
decoder classifies them, and strings code-point-wise.
-/

namespace Cookiejar

/-- Modelled from the spec: the `entry` record type is declared in `jar.go`
(absent from the sources); per the spec it carries a name, value,
domain/group identity, path, security flag bits, an expiry timestamp and a
persistence flag, with the canonical group key used as primary sort key. -/
structure entry where
  Name : String
  Value : String
  Domain : String
  Path : String
  Secure : Bool
  Expires : Int
  Persistent : Bool
  CanonicalHost : String
deriving DecidableEq

/-- The zero value of `entry`, produced when the decoder meets a JSON `null`
or an object missing some fields. -/
def zeroEntry : entry :=
  { Name := "", Value := "", Domain := "", Path := "", Secure := false,
    Expires := 0, Persistent := false, CanonicalHost := "" }

/-- A JSON value, the shape produced and consumed by the codec. -/
inductive Json where
  | null : Json
  | bool : Bool → Json
  | num : Int → Json
  | str : String → Json
  | arr : List Json → Json
  | obj : List (String × Json) → Json

/-- Modelled from the spec: the byte-level classification that the JSON
decoder performs on a file's contents — an empty stream, syntactically
invalid bytes, or a single well-formed JSON value. -/
inductive FileContent where
  | empty : FileContent
  | malformed : FileContent
  | json : Json → FileContent

/-- The JSON object written for one entry (field names follow the record's
field names, as the Go marshaller does for untagged struct fields). -/
def entryToJson (e : entry) : Json :=
  .obj [("Name", .str e.Name), ("Value", .str e.Value),
        ("Domain", .str e.Domain), ("Path", .str e.Path),
        ("Secure", .bool e.Secure), ("Expires", .num e.Expires),
        ("Persistent", .bool e.Persistent),
        ("CanonicalHost", .str e.CanonicalHost)]

/-- Decode a string-typed field: absent or `null` fields fall back to the
zero value, a value of any other JSON type is a decode failure. -/
def jsonFieldStr (fs : List (String × Json)) (k : String) : Option String :=
  match fs.lookup k with
  | Option.none => some ""
  | some (.str s) => some s
  | some .null => some ""
  | some _ => none

/-- Decode a boolean-typed field, with the zero-value fallback. -/
def jsonFieldBool (fs : List (String × Json)) (k : String) : Option Bool :=
  match fs.lookup k with
  | Option.none => some false
  | some (.bool b) => some b
  | some .null => some false
  | some _ => none

/-- Decode an integer-typed field, with the zero-value fallback. -/
def jsonFieldInt (fs : List (String × Json)) (k : String) : Option Int :=
  match fs.lookup k with
  | Option.none => some 0
  | some (.num n) => some n
  | some .null => some 0
  | some _ => none

/-- Decode one entry from a JSON value: an object with the known fields
(unknown keys are ignored, missing keys take zero values, `null` decodes to
the zero entry); anything else fails. -/
def entryOfJson : Json → Option entry
  | .null => some zeroEntry
  | .obj fs => do
      let name ← jsonFieldStr fs "Name"
      let value ← jsonFieldStr fs "Value"
      let domain ← jsonFieldStr fs "Domain"
      let path ← jsonFieldStr fs "Path"
      let secure ← jsonFieldBool fs "Secure"
      let expires ← jsonFieldInt fs "Expires"
      let persistent ← jsonFieldBool fs "Persistent"
      let canonicalHost ← jsonFieldStr fs "CanonicalHost"
      some { Name := name, Value := value, Domain := domain, Path := path,
             Secure := secure, Expires := expires, Persistent := persistent,
             CanonicalHost := canonicalHost }
  | _ => none

/-- Decode a list of entries element-wise; any element failing fails the
whole decode (the unmarshaller fills the slice only on full success). -/
def decodeEntryList : List Json → Option (List entry)
  | [] => some []
  | v :: vs =>
      match entryOfJson v, decodeEntryList vs with
      | some e, some es => some (e :: es)
      | _, _ => none

/-- Decode the top-level value expected in the cookie file: `null` decodes
to the empty slice, an array decodes element-wise, and any other shape is a
schema mismatch (`none`), which the caller treats as legacy data. -/
def decodeJsonEntries : Json → Option (List entry)
  | .null => some []
  | .arr vs => decodeEntryList vs
  | _ => none

/-- The in-memory jar, reduced to the flattened contents of its
`entries` map of maps; the list order stands for the (arbitrary) iteration
order of the map. -/
structure Jar where
  entries : List entry

/-- Modelled from the spec: a record's identity within the store is the
combination of group key and record key (domain, path, name). -/
def entryId (e : entry) : String × String × String × String :=
  (e.CanonicalHost, e.Domain, e.Path, e.Name)

/-- Modelled from the spec: merging one incoming record — if a record with
the same identity exists it is overwritten (the store's conflict
precedence), otherwise the record is added. -/
def mergeEntry (es : List entry) (e : entry) : List entry :=
  if es.any (fun e0 => decide (entryId e0 = entryId e)) then
    es.map (fun e0 => if entryId e0 = entryId e then e else e0)
  else
    es ++ [e]

/-- Modelled from the spec: `(*Jar).merge` (defined in `jar.go`) applies a
list of externally loaded records to the store, resolving identity
conflicts by the store's precedence rules. -/
def Jar.merge (j : Jar) (incoming : List entry) : Jar :=
  ⟨incoming.foldl mergeEntry j.entries⟩

/-- Modelled from the spec: `(*Jar).deleteExpired` (defined in `jar.go`)
removes the records whose expiry is at or before the given instant. -/
def Jar.deleteExpired (j : Jar) (now : Int) : Jar :=
  ⟨j.entries.filter (fun e => decide (now < e.Expires))⟩

/-- Strict lexicographic order on character lists. -/
def charListLt : List Char → List Char → Bool
  | [], [] => false
  | [], _ :: _ => true
  | _ :: _, [] => false
  | a :: as, b :: bs =>
      if a < b then true else if b < a then false else charListLt as bs

/-- Strict lexicographic order on strings, code-point-wise. -/
def strLt (s t : String) : Bool := charListLt s.data t.data

/-- Modelled from the spec: the `byCanonicalHost` ordering used for
serialization — primary key the canonical group key ascending, secondary
key the path length ascending. -/
def entryLE (a b : entry) : Prop :=
  strLt a.CanonicalHost b.CanonicalHost = true ∨
    (a.CanonicalHost = b.CanonicalHost ∧ a.Path.length ≤ b.Path.length)

instance : DecidableRel entryLE := fun a b => by
  unfold entryLE; infer_instance

/-- `allPersistentEntries` collects the persistent records of the jar and
sorts them for serialization (a stable sort under `entryLE`, as the spec
requires). -/
def allPersistentEntries (j : Jar) : List entry :=
  List.insertionSort entryLE (j.entries.filter (fun e => e.Persistent))

/-- `writeTo` encodes the persistent records as a single JSON array. -/
def writeTo (j : Jar) : FileContent :=
  FileContent.json (Json.arr ((allPersistentEntries j).map entryToJson))

/-- `mergeFrom` reads the cookies in a file's contents into the jar.  An
empty stream merges nothing and is no error; a well-formed JSON value of a
foreign shape is discarded with a logged warning and no error; syntactically
invalid data leaves the jar unchanged and reports a decode error.  The
result pairs the updated jar with the error value returned. -/
def Jar.mergeFrom (j : Jar) : FileContent → Jar × Option String
  | .empty => (j, none)
  | .malformed => (j, some "invalid JSON")
  | .json v =>
      match decodeJsonEntries v with
      | Option.none => (j, none)
      | some es => (j.merge es, none)

/-- `save` over a file state: the advisory lock serializes the whole call,
the file is opened with create (an absent file reads as empty), the
existing contents are merged into the jar — a decode error being logged and
ignored — expired records are purged as of `now`, and the persistent
records are written back as the new file contents. -/
def save (j : Jar) (file : Option FileContent) (now : Int) : Jar × FileContent :=
  let c := file.getD FileContent.empty
  let j1 := (j.mergeFrom c).1
  let j2 := j1.deleteExpired now
  (j2, writeTo j2)

/-- `load` over a file state: an absent file loads nothing and is no error;
otherwise the contents are merged, a decode error propagating to the
caller. -/
def load (j : Jar) (file : Option FileContent) : Jar × Option String :=
  match file with
  | Option.none => (j, none)
  | some c => j.mergeFrom c

/-- The record list a reader of the file contents observes (empty for an
unreadable or foreign-format file). -/
def fileRecords (f : FileContent) : List entry :=
  match f with
  | .json v => (decodeJsonEntries v).getD []
  | _ => []

mutual

/-- Render a JSON value to its serialized text. -/
def renderJson : Json → String
  | .null => "null"
  | .bool b => cond b "true" "false"
  | .num n => toString n
  | .str s => "\"" ++ s ++ "\""
  | .arr vs => "[" ++ renderJsonList vs ++ "]"
  | .obj fs => "\x7b" ++ renderJsonFields fs ++ "\x7d"

/-- Render the comma-separated elements of a JSON array. -/
def renderJsonList : List Json → String
  | [] => ""
  | [v] => renderJson v
  | v :: v2 :: vs => renderJson v ++ "," ++ renderJsonList (v2 :: vs)

/-- Render the comma-separated fields of a JSON object. -/
def renderJsonFields : List (String × Json) → String
  | [] => ""
  | [(k, v)] => "\"" ++ k ++ "\":" ++ renderJson v
  | (k, v) :: f2 :: fs =>
      "\"" ++ k ++ "\":" ++ renderJson v ++ "," ++ renderJsonFields (f2 :: fs)

end

/-- The bytes a successful `save` leaves in the file (the JSON encoder also
appends a newline). -/
def renderFile : FileContent → String
  | .empty => ""
  | .malformed => ""
  | .json v => renderJson v ++ "\n"

/-! ### The advisory-lock retry loop (`lockFile`) -/

/-- `maxRetryDuration` is 2s, in microseconds here. -/
def maxRetryDuration : Nat := 2000000

/-- The initial retry interval of `lockFile`: 100µs. -/
def initialRetry : Nat := 100

/-- The retry loop of `lockFile`, over an abstract wall clock counted in
microseconds.  Modelled from the spec for the external mutex: the lock is
permanently held by a competing holder, so every `Acquire` attempt fails
after consuming `d` microseconds.  `elapsed` is the time since `startTime`
at which the current attempt starts and `retry` the current sleep interval;
the result on success (`some`) gives the time at which the loop gives up
with the timeout error together with the start times of every attempt made;
`fuel` bounds the recursion and `none` marks exhaustion. -/
def lockFileLoop (d retry elapsed : Nat) : Nat → Option (Nat × List Nat)
  | 0 => none
  | fuel + 1 =>
      let total := elapsed + d
      if maxRetryDuration < total then
        some (total, [elapsed])
      else
        let remain := maxRetryDuration - total
        let retry2 := if remain < retry then remain else retry
        match lockFileLoop d retry2 (total + retry2) fuel with
        | Option.none => none
        | some (T, starts) => some (T, elapsed :: starts)

/-! ### Lock name derivation (`lockNameFromPath`) -/

/-- Addition modulo 2^32. -/
def add32 (a b : Nat) : Nat := (a + b) % 4294967296

/-- Right rotation of a 32-bit word. -/
def rotr32 (n x : Nat) : Nat := ((x >>> n) ||| (x <<< (32 - n))) % 4294967296

/-- The SHA-256 round constants (decimal). -/
def sha256K : List Nat :=
  [1116352408, 1899447441, 3049323471, 3921009573, 961987163,
   1508970993, 2453635748, 2870763221, 3624381080, 310598401,
   607225278, 1426881987, 1925078388, 2162078206, 2614888103,
   3248222580, 3835390401, 4022224774, 264347078, 604807628,
   770255983, 1249150122, 1555081692, 1996064986, 2554220882,
   2821834349, 2952996808, 3210313671, 3336571891, 3584528711,
   113926993, 338241895, 666307205, 773529912, 1294757372,
   1396182291, 1695183700, 1986661051, 2177026350, 2456956037,
   2730485921, 2820302411, 3259730800, 3345764771, 3516065817,
   3600352804, 4094571909, 275423344, 430227734, 506948616,
   659060556, 883997877, 958139571, 1322822218, 1537002063,
   1747873779, 1955562222, 2024104815, 2227730452, 2361852424,
   2428436474, 2756734187, 3204031479, 3329325298]

/-- The SHA-256 initial hash state (decimal). -/
def sha256H0 : List Nat :=
  [1779033703, 3144134277, 1013904242, 2773480762, 1359893119,
   2600822924, 528734635, 1541459225]

/-- `n`-byte big-endian representation of `v`. -/
def toBytesBE (n v : Nat) : List Nat :=
  (List.range n).map (fun i => (v >>> (8 * (n - 1 - i))) % 256)

/-- SHA-256 message padding: a 0x80 byte, zeros to 56 mod 64, and the
bit length as a 64-bit big-endian integer. -/
def padMessage (msg : List Nat) : List Nat :=
  msg ++ [0x80] ++ List.replicate ((119 - msg.length % 64) % 64) 0
      ++ toBytesBE 8 (msg.length * 8)

/-- Split a byte list into 64-byte blocks. -/
def chunks64 (l : List Nat) : List (List Nat) :=
  if h : l = [] then [] else l.take 64 :: chunks64 (l.drop 64)
termination_by l.length
decreasing_by
  simp only [List.length_drop]
  have : 0 < l.length := List.length_pos.mpr h
  omega

/-- The 16 initial 32-bit message-schedule words of a block, big-endian. -/
def blockWords (block : List Nat) : List Nat :=
  (List.range 16).map (fun i =>
    (block.getD (4 * i) 0) <<< 24 ||| (block.getD (4 * i + 1) 0) <<< 16 |||
    (block.getD (4 * i + 2) 0) <<< 8 ||| block.getD (4 * i + 3) 0)

/-- σ0 of the SHA-256 message schedule. -/
def smallSigma0 (x : Nat) : Nat := rotr32 7 x ^^^ rotr32 18 x ^^^ (x >>> 3)

/-- σ1 of the SHA-256 message schedule. -/
def smallSigma1 (x : Nat) : Nat := rotr32 17 x ^^^ rotr32 19 x ^^^ (x >>> 10)

/-- Append the next message-schedule word. -/
def scheduleStep (w : List Nat) : List Nat :=
  let n := w.length
  let g := fun (k : Nat) => w.getD (n - k) 0
  w ++ [(smallSigma1 (g 2) + g 7 + smallSigma0 (g 15) + g 16) % 4294967296]

/-- Extend the 16 block words to the full 64-word schedule. -/
def schedule64 (w : List Nat) : List Nat := Nat.repeat scheduleStep 48 w

/-- One SHA-256 compression round; the state is `[a,b,c,d,e,f,g,h]`. -/
def compressStep (s : List Nat) (kw : Nat × Nat) : List Nat :=
  let a := s.getD 0 0
  let b := s.getD 1 0
  let c := s.getD 2 0
  let d := s.getD 3 0
  let e := s.getD 4 0
  let f := s.getD 5 0
  let g := s.getD 6 0
  let h := s.getD 7 0
  let S1 := rotr32 6 e ^^^ rotr32 11 e ^^^ rotr32 25 e
  let ch := (e &&& f) ^^^ ((e ^^^ 0xffffffff) &&& g)
  let t1 := (h + S1 + ch + kw.1 + kw.2) % 4294967296
  let S0 := rotr32 2 a ^^^ rotr32 13 a ^^^ rotr32 22 a
  let maj := (a &&& b) ^^^ (a &&& c) ^^^ (b &&& c)
  let t2 := (S0 + maj) % 4294967296
  [(t1 + t2) % 4294967296, a, b, c, (d + t1) % 4294967296, e, f, g]

/-- Process one 64-byte block into the running hash state. -/
def compressBlock (hs : List Nat) (block : List Nat) : List Nat :=
  let w := schedule64 (blockWords block)
  let s := (sha256K.zip w).foldl compressStep hs
  (hs.zip s).map (fun p => (p.1 + p.2) % 4294967296)

/-- SHA-256 of a byte list, as the 32-byte big-endian digest. -/
def sha256Bytes (msg : List Nat) : List Nat :=
  ((chunks64 (padMessage msg)).foldl compressBlock sha256H0).map (toBytesBE 4)
    |>.flatten

/-- The URL-safe base64 alphabet. -/
def b64UrlAlphabet : List Char :=
  "ABCDEFGHIJKLMNOPQRSTUVWXYZabcdefghijklmnopqrstuvwxyz0123456789-_".data

/-- Character `n` (0 ≤ n < 64) of the URL-safe base64 alphabet. -/
def b64Char (n : Nat) : Char := b64UrlAlphabet.getD n 'A'

/-- URL-safe base64 encoding with padding, over a byte list. -/
def base64urlEncode : List Nat → List Char
  | b1 :: b2 :: b3 :: rest =>
      b64Char (b1 >>> 2) :: b64Char ((b1 % 4) <<< 4 ||| (b2 >>> 4)) ::
      b64Char ((b2 % 16) <<< 2 ||| (b3 >>> 6)) :: b64Char (b3 % 64) ::
      base64urlEncode rest
  | [b1, b2] =>
      [b64Char (b1 >>> 2), b64Char ((b1 % 4) <<< 4 ||| (b2 >>> 4)),
       b64Char ((b2 % 16) <<< 2), '=']
  | [b1] =>
      [b64Char (b1 >>> 2), b64Char ((b1 % 4) <<< 4), '=', '=']
  | [] => []

/-- UTF-8 encoding of one code point. -/
def utf8Bytes (c : Char) : List Nat :=
  let n := c.toNat
  if n < 0x80 then [n]
  else if n < 0x800 then [0xc0 ||| (n >>> 6), 0x80 ||| (n &&& 0x3f)]
  else if n < 0x10000 then
    [0xe0 ||| (n >>> 12), 0x80 ||| ((n >>> 6) &&& 0x3f), 0x80 ||| (n &&& 0x3f)]
  else
    [0xf0 ||| (n >>> 18), 0x80 ||| ((n >>> 12) &&& 0x3f),
     0x80 ||| ((n >>> 6) &&& 0x3f), 0x80 ||| (n &&& 0x3f)]

/-- The UTF-8 bytes of a string. -/
def stringBytes (s : String) : List Nat := (s.data.map utf8Bytes).flatten

/-- Whether a character is in `[A-Za-z0-9]`, the complement of what the
regular expression of `serialize.go` strips. -/
def isAlnumChar (c : Char) : Bool :=
  ('a' ≤ c && c ≤ 'z') || ('A' ≤ c && c ≤ 'Z') || ('0' ≤ c && c ≤ '9')

/-- Remove every character outside `[A-Za-z0-9]`. -/
def stripNonAlnum (s : String) : String := ⟨s.data.filter isAlnumChar⟩

/-- `lockNameFromPath`: fail on the empty path; otherwise hash the path,
base64-encode the digest URL-safely, keep its first 29 characters, append
the last 10 characters of the path, prefix `L`, and strip every
non-alphanumeric character.  (Go slices the path by bytes; the model slices
code-point-wise.) -/
def lockNameFromPath (path : String) : Except String String :=
  if path = "" then .error "path cannot be empty"
  else
    let sha := base64urlEncode (sha256Bytes (stringBytes path))
    let tail := if 10 < path.length then path.drop (path.length - 10) else path
    .ok (stripNonAlnum ("L" ++ String.mk (sha.take 29) ++ tail))

/-- The sort key of the serialization order: canonical group key and path
length. -/
def sortKey (e : entry) : String × Nat := (e.CanonicalHost, e.Path.length)

/-- Whether a JSON object carries a field named `k`. -/
def hasField (fs : List (String × Json)) (k : String) : Bool :=
  (fs.lookup k).isSome

/-- Whether a JSON value is a record object: an object carrying at minimum
the name, value, domain identity, path, security flag, expiry timestamp,
persistence flag and canonical group key fields. -/
def isRecordObject : Json → Bool
  | .obj fs =>
      hasField fs "Name" && hasField fs "Value" && hasField fs "Domain" &&
      hasField fs "Path" && hasField fs "Secure" && hasField fs "Expires" &&
      hasField fs "Persistent" && hasField fs "CanonicalHost"
  | _ => false

/-- Whether file contents are exactly one JSON array of record objects. -/
def isRecordArray : FileContent → Bool
  | .json (.arr vs) => vs.all isRecordObject
  | _ => false

/-- A concrete persistent record; it ties with [[cexEntryB]] on the
serialization sort key (same host, same path length). -/
def cexEntryA : entry := ⟨"n1", "", "", "/a", false, 1, true, "h"⟩

/-- A concrete persistent record distinct from [[cexEntryA]] but with the
same canonical host and path length. -/
def cexEntryB : entry := ⟨"n2", "", "", "/b", false, 1, true, "h"⟩

/-- A concrete persistent record with sort key distinct from
[[wEntryB]]. -/
def wEntryA : entry := ⟨"wa", "", "", "/", false, 1, true, "h"⟩

/-- A concrete persistent record with a longer path than [[wEntryA]]. -/
def wEntryB : entry := ⟨"wb", "", "", "/ab", false, 1, true, "h"⟩

/-! ### Lemmas about the codec -/

theorem entryOfJson_entryToJson (e : entry) :
    entryOfJson (entryToJson e) = some e := rfl

theorem decodeEntryList_map (l : List entry) :
    decodeEntryList (l.map entryToJson) = some l := by
  induction l with
  | nil => rfl
  | cons e l ih => simp [decodeEntryList, entryOfJson_entryToJson, ih]

theorem fileRecords_writeTo (j : Jar) :
    fileRecords (writeTo j) = allPersistentEntries j := by
  simp [fileRecords, writeTo, decodeJsonEntries, decodeEntryList_map]

/-! ### Lemmas about the serialization order -/

theorem charListLt_cons_iff {a b : Char} {as bs : List Char} :
    charListLt (a :: as) (b :: bs) = true ↔
      a < b ∨ (a = b ∧ charListLt as bs = true) := by
  by_cases h1 : a < b
  · simp [charListLt, h1]
  · by_cases h2 : b < a
    · simp [charListLt, h1, h2, ne_of_gt h2]
    · have he : a = b := le_antisymm (le_of_not_lt h2) (le_of_not_lt h1)
      simp [charListLt, h1, h2, he]

theorem charListLt_irrefl : ∀ l : List Char, charListLt l l = false := by
  intro l
  induction l with
  | nil => rfl
  | cons a as ih => simp [charListLt, lt_irrefl, ih]

theorem charListLt_total : ∀ l1 l2 : List Char,
    charListLt l1 l2 = true ∨ l1 = l2 ∨ charListLt l2 l1 = true
  | [], [] => Or.inr (Or.inl rfl)
  | [], _ :: _ => Or.inl rfl
  | _ :: _, [] => Or.inr (Or.inr rfl)
  | a :: as, b :: bs => by
      rcases lt_trichotomy a b with h | h | h
      · exact Or.inl (by simp [charListLt, h])
      · subst h
        rcases charListLt_total as bs with h2 | h2 | h2
        · exact Or.inl (charListLt_cons_iff.mpr (Or.inr ⟨rfl, h2⟩))
        · exact Or.inr (Or.inl (by rw [h2]))
        · exact Or.inr (Or.inr (charListLt_cons_iff.mpr (Or.inr ⟨rfl, h2⟩)))
      · exact Or.inr (Or.inr (by simp [charListLt, h]))

theorem charListLt_trans : ∀ l1 l2 l3 : List Char,
    charListLt l1 l2 = true → charListLt l2 l3 = true →
    charListLt l1 l3 = true
  | [], [], _, h12, _ => by simp [charListLt] at h12
  | _ :: _, [], _, h12, _ => by simp [charListLt] at h12
  | [], _ :: _, [], _, h23 => by simp [charListLt] at h23
  | _ :: _, _ :: _, [], _, h23 => by simp [charListLt] at h23
  | [], _ :: _, _ :: _, _, _ => rfl
  | a :: as, b :: bs, c :: cs, h12, h23 => by
      rcases charListLt_cons_iff.mp h12 with h | ⟨he1, hr1⟩
      · rcases charListLt_cons_iff.mp h23 with h2 | ⟨he2, _⟩
        · exact charListLt_cons_iff.mpr (Or.inl (lt_trans h h2))
        · exact charListLt_cons_iff.mpr (Or.inl (he2 ▸ h))
      · rcases charListLt_cons_iff.mp h23 with h2 | ⟨he2, hr2⟩
        · exact charListLt_cons_iff.mpr (Or.inl (he1 ▸ h2))
        · exact charListLt_cons_iff.mpr
            (Or.inr ⟨he1.trans he2, charListLt_trans as bs cs hr1 hr2⟩)

theorem charListLt_asymm {l1 l2 : List Char}
    (h : charListLt l1 l2 = true) : charListLt l2 l1 = false := by
  cases hh : charListLt l2 l1 with
  | false => rfl
  | true =>
      have := charListLt_trans l1 l2 l1 h hh
      rw [charListLt_irrefl] at this
      simp at this

theorem entryLE_total : ∀ a b : entry, entryLE a b ∨ entryLE b a := by
  intro a b
  rcases charListLt_total a.CanonicalHost.data b.CanonicalHost.data with h | h | h
  · exact Or.inl (Or.inl h)
  · have he : a.CanonicalHost = b.CanonicalHost := by
      cases hca : a.CanonicalHost with
      | mk l1 =>
          cases hcb : b.CanonicalHost with
          | mk l2 =>
              rw [hca, hcb] at h
              exact congrArg String.mk h
    rcases le_total a.Path.length b.Path.length with hl | hl
    · exact Or.inl (Or.inr ⟨he, hl⟩)
    · exact Or.inr (Or.inr ⟨he.symm, hl⟩)
  · exact Or.inr (Or.inl h)

theorem entryLE_trans : ∀ a b c : entry, entryLE a b → entryLE b c → entryLE a c := by
  intro a b c hab hbc
  rcases hab with hab | ⟨hab, la⟩
  · rcases hbc with hbc | ⟨hbc, _⟩
    · exact Or.inl (charListLt_trans _ _ _ hab hbc)
    · exact Or.inl (by rw [strLt] at hab ⊢; rw [← hbc]; exact hab)
  · rcases hbc with hbc | ⟨hbc, lb⟩
    · exact Or.inl (by rw [strLt] at hbc ⊢; rw [hab]; exact hbc)
    · exact Or.inr ⟨hab.trans hbc, la.trans lb⟩

instance : IsTotal entry entryLE := ⟨entryLE_total⟩

instance : IsTrans entry entryLE := ⟨entryLE_trans⟩

theorem sortKey_eq_of_entryLE_both {a b : entry}
    (hab : entryLE a b) (hba : entryLE b a) : sortKey a = sortKey b := by
  rcases hab with hab | ⟨hab, la⟩
  · rcases hba with hba | ⟨hba, _⟩
    · rw [strLt] at hab hba
      rw [charListLt_asymm hab] at hba
      exact absurd hba (by simp)
    · rw [strLt] at hab
      rw [hba] at hab
      rw [charListLt_irrefl] at hab
      exact absurd hab (by simp)
  · rcases hba with hba | ⟨_, lb⟩
    · rw [strLt] at hba
      rw [hab] at hba
      rw [charListLt_irrefl] at hba
      exact absurd hba (by simp)
    · simp [sortKey, hab, le_antisymm la lb]

/-- Two sorted lists that are permutations of each other and whose sort
keys are pairwise distinct are equal. -/
theorem sorted_perm_nodupkey_eq :
    ∀ (l1 l2 : List entry), l1.Perm l2 →
      List.Sorted entryLE l1 → List.Sorted entryLE l2 →
      l1.Pairwise (fun a b => sortKey a ≠ sortKey b) → l1 = l2
  | [], l2, hp, _, _, _ => hp.nil_eq
  | a :: t1, l2, hp, hs1, hs2, hk => by
      cases l2 with
      | nil => exact absurd hp.symm.nil_eq (by simp)
      | cons b t2 =>
          have hab : a = b := by
            by_contra hne
            have ha2 : a ∈ t2 := by
              have := hp.mem_iff.mp (List.mem_cons_self a t1)
              simpa [hne] using this
            have hb1 : b ∈ t1 := by
              have := hp.symm.mem_iff.mp (List.mem_cons_self b t2)
              simpa [Ne.symm hne] using this
            have h1 : entryLE a b := List.rel_of_sorted_cons hs1 b hb1
            have h2 : entryLE b a := List.rel_of_sorted_cons hs2 a ha2
            exact (List.rel_of_pairwise_cons hk hb1)
              (sortKey_eq_of_entryLE_both h1 h2)
          subst hab
          have ht : t1 = t2 :=
            sorted_perm_nodupkey_eq t1 t2 hp.cons_inv hs1.of_cons hs2.of_cons
              hk.of_cons
          rw [ht]

theorem mem_allPersistentEntries {j : Jar} {x : entry} :
    x ∈ allPersistentEntries j ↔ x ∈ j.entries ∧ x.Persistent = true := by
  unfold allPersistentEntries
  rw [List.mem_insertionSort, List.mem_filter]

/-! ### Lemmas about merging -/

theorem foldl_mergeEntry_append (l : List entry) :
    ∀ (acc : List entry),
      (∀ a ∈ acc, ∀ b ∈ l, entryId a ≠ entryId b) →
      l.Pairwise (fun a b => entryId a ≠ entryId b) →
      l.foldl mergeEntry acc = acc ++ l := by
  induction l with
  | nil => intro acc _ _; simp
  | cons e l ih =>
      intro acc hacc hpw
      have hnot : ¬ acc.any (fun e0 => decide (entryId e0 = entryId e)) := by
        simp only [List.any_eq_true, decide_eq_true_eq, not_exists, not_and]
        intro a ha
        exact hacc a ha e (List.mem_cons_self e l)
      have hstep : mergeEntry acc e = acc ++ [e] := by
        simp [mergeEntry, hnot]
      rw [List.foldl_cons, hstep,
        ih (acc ++ [e])
          (by
            intro a ha b hb
            rcases List.mem_append.mp ha with ha | ha
            · exact hacc a ha b (List.mem_cons_of_mem e hb)
            · have : a = e := by simpa using ha
              subst this
              exact List.rel_of_pairwise_cons hpw hb)
          hpw.of_cons]
      simp

theorem merge_nil_eq {l : List entry}
    (h : l.Pairwise (fun a b => entryId a ≠ entryId b)) :
    Jar.merge ⟨[]⟩ l = ⟨l⟩ := by
  unfold Jar.merge
  rw [foldl_mergeEntry_append l [] (by simp) h]
  rfl

/-! ### Lemmas about `save` -/

theorem save_snd (j : Jar) (file : Option FileContent) (now : Int) :
    (save j file now).2 =
      writeTo ((j.mergeFrom (file.getD FileContent.empty)).1.deleteExpired now) :=
  rfl

theorem mem_fileRecords_save {j : Jar} {file : Option FileContent} {now : Int}
    {x : entry} (h : x ∈ fileRecords (save j file now).2) :
    now < x.Expires ∧ x.Persistent = true := by
  rw [save_snd, fileRecords_writeTo] at h
  have h2 := mem_allPersistentEntries.mp h
  refine ⟨?_, h2.2⟩
  have h3 := List.mem_filter.mp h2.1
  simpa using h3.2

/-! ### The claims -/

/-- Claim C5: the serialized output of `save` contains only records with
the persistence flag set; a non-persistent record is never written,
regardless of its expiry. -/
theorem saveWritesOnlyPersistent (j : Jar) (file : Option FileContent)
    (now : Int) :
    ((fileRecords (save j file now).2).all (fun e => e.Persistent)) = true := by
  rw [save_snd, fileRecords_writeTo, List.all_eq_true]
  intro e he
  exact (mem_allPersistentEntries.mp he).2

/-- Claim C9: a successful `save` leaves the file containing exactly one
JSON array of record objects — each carrying at minimum the name, value,
domain identity, path, security flag, expiry timestamp, persistence flag
and canonical group key fields — including when the persistent record set
is empty. -/
theorem saveWritesRecordArray (j : Jar) (file : Option FileContent)
    (now : Int) :
    isRecordArray (save j file now).2 = true := by
  rw [save_snd]
  unfold writeTo isRecordArray
  rw [List.all_eq_true]
  intro v hv
  rcases List.mem_map.mp hv with ⟨e, _, rfl⟩
  rfl

/-- Claim C8: decoding an empty stream merges nothing and is no error; a
well-formed JSON value of a foreign shape merges nothing and is no error;
syntactically invalid bytes give an error that `load` propagates while
`save` ignores it and proceeds exactly as over an empty file. -/
theorem decodeTieringAsymmetry (j : Jar) (now : Int) :
    Jar.mergeFrom j .empty = (j, none)
    ∧ (∀ v : Json, decodeJsonEntries v = none →
        Jar.mergeFrom j (.json v) = (j, none))
    ∧ Jar.mergeFrom j .malformed = (j, some "invalid JSON")
    ∧ load j (some .malformed) = (j, some "invalid JSON")
    ∧ save j (some .malformed) now = save j (some .empty) now := by
  refine ⟨rfl, ?_, rfl, rfl, rfl⟩
  intro v hv
  simp [Jar.mergeFrom, hv]

/-- Claim C10: the store's merge runs only after the whole JSON value has
decoded, so whenever `mergeFrom` — and hence `load` — returns a decode
error, the in-memory jar is left completely unchanged. -/
theorem loadDecodeErrorAtomic (j : Jar) :
    (∀ (c : FileContent) (err : String),
       (Jar.mergeFrom j c).2 = some err → (Jar.mergeFrom j c).1 = j)
    ∧ (∀ (f : Option FileContent) (err : String),
       (load j f).2 = some err → (load j f).1 = j) := by
  have hm : ∀ (c : FileContent) (err : String),
      (Jar.mergeFrom j c).2 = some err → (Jar.mergeFrom j c).1 = j := by
    intro c err h
    cases c with
    | empty => rfl
    | malformed => rfl
    | json v =>
        cases hd : decodeJsonEntries v with
        | none => simp [Jar.mergeFrom, hd]
        | some es => simp [Jar.mergeFrom, hd] at h
  refine ⟨hm, ?_⟩
  intro f err h
  cases f with
  | none => rfl
  | some c => exact hm c err h

/-- Claim C4: purging happens inside `save` after the file merge and
before writing, so a record expired strictly before `now` is absent from
the written snapshot whatever the file held, and a persistent record of the
jar expiring strictly after `now` is present. -/
theorem saveExpiryAtSave (es : List entry) (now : Int) (x : entry) :
    (∀ file : Option FileContent,
        x.Expires < now → x ∉ fileRecords (save ⟨es⟩ file now).2)
    ∧ (x ∈ es → x.Persistent = true → now < x.Expires →
        x ∈ fileRecords (save ⟨es⟩ none now).2) := by
  constructor
  · intro file hlt hmem
    have h := (mem_fileRecords_save hmem).1
    exact absurd (lt_trans h hlt) (lt_irrefl _)
  · intro hmem hp hlt
    rw [save_snd, fileRecords_writeTo]
    refine mem_allPersistentEntries.mpr ⟨?_, hp⟩
    show x ∈ (Jar.deleteExpired _ now).entries
    unfold Jar.deleteExpired
    exact List.mem_filter.mpr ⟨hmem, by simpa using hlt⟩

/-- Claim C2: saving a non-empty jar of persistent, non-expired records and
loading the file into a fresh empty jar yields an equivalent record set,
up to order. -/
theorem saveLoadRoundTrip (es : List entry) (now : Int)
    (hne : es ≠ [])
    (hall : ∀ e ∈ es, e.Persistent = true ∧ now < e.Expires)
    (hid : es.Pairwise (fun a b => entryId a ≠ entryId b)) :
    ∃ l : List entry,
      load ⟨[]⟩ (some (save ⟨es⟩ none now).2) = (⟨l⟩, none) ∧ l.Perm es := by
  have hexp : es.filter (fun e => decide (now < e.Expires)) = es :=
    List.filter_eq_self.mpr (fun e he => by simpa using (hall e he).2)
  have hper : es.filter (fun e => e.Persistent) = es :=
    List.filter_eq_self.mpr (fun e he => (hall e he).1)
  have hsave : (save ⟨es⟩ none now).2 =
      FileContent.json (Json.arr
        ((List.insertionSort entryLE es).map entryToJson)) := by
    rw [save_snd]
    show writeTo (Jar.deleteExpired ⟨es⟩ now) = _
    unfold Jar.deleteExpired writeTo allPersistentEntries
    rw [hexp, hper]
  have hperm : (List.insertionSort entryLE es).Perm es :=
    List.perm_insertionSort entryLE es
  have hidS : (List.insertionSort entryLE es).Pairwise
      (fun a b => entryId a ≠ entryId b) :=
    (hperm.pairwise_iff (fun h => Ne.symm h)).mpr hid
  refine ⟨List.insertionSort entryLE es, ?_, hperm⟩
  rw [hsave]
  unfold load
  simp only [Jar.mergeFrom, decodeJsonEntries, decodeEntryList_map]
  rw [merge_nil_eq hidS]

/-- Claim C1: if jar A holds record X and saves to an absent file, and an
independent fresh jar B then loads the file, adds a record Y of a different
identity and saves, the final file contains both X and Y — because each
save merges the existing file contents into the store before truncating
and rewriting. -/
theorem saveMergeNoLoss (x y : entry) (now1 now2 : Int)
    (hpx : x.Persistent = true) (hpy : y.Persistent = true)
    (hx1 : now1 < x.Expires) (hx2 : now2 < x.Expires) (hy2 : now2 < y.Expires)
    (hid : entryId x ≠ entryId y) :
    let f1 := (save ⟨[x]⟩ none now1).2
    let jB := ((load ⟨[]⟩ (some f1)).1).merge [y]
    let f2 := (save jB (some f1) now2).2
    x ∈ fileRecords f2 ∧ y ∈ fileRecords f2 := by
  intro f1 jB f2
  have hid2 : entryId y ≠ entryId x := Ne.symm hid
  have hf1 : f1 = FileContent.json (Json.arr [entryToJson x]) := by
    show (save ⟨[x]⟩ none now1).2 = _
    rw [save_snd]
    show writeTo (Jar.deleteExpired ⟨[x]⟩ now1) = _
    unfold Jar.deleteExpired writeTo allPersistentEntries
    simp [List.filter, hx1, hpx, List.insertionSort]
  have hjB : jB = Jar.mk [x, y] := by
    show ((load ⟨[]⟩ (some f1)).1).merge [y] = _
    rw [hf1]
    show ((Jar.mergeFrom ⟨[]⟩ _).1).merge [y] = _
    simp only [Jar.mergeFrom, decodeJsonEntries, decodeEntryList,
      entryOfJson_entryToJson]
    show ((Jar.merge ⟨[]⟩ [x]).merge [y]) = _
    unfold Jar.merge
    simp [mergeEntry, hid, hid2]
  have hmerged : (Jar.mergeFrom jB f1).1 = Jar.mk [x, y] := by
    rw [hjB, hf1]
    simp only [Jar.mergeFrom, decodeJsonEntries, decodeEntryList,
      entryOfJson_entryToJson]
    show Jar.merge ⟨[x, y]⟩ [x] = _
    unfold Jar.merge
    simp [mergeEntry, hid, hid2]
  have hf2 : f2 = writeTo (Jar.mk [x, y]) := by
    show (save jB (some f1) now2).2 = _
    rw [save_snd]
    show writeTo ((Jar.mergeFrom jB f1).1.deleteExpired now2) = _
    rw [hmerged]
    unfold Jar.deleteExpired
    simp [List.filter, hx2, hy2]
  rw [hf2, fileRecords_writeTo]
  exact ⟨mem_allPersistentEntries.mpr ⟨by simp, hpx⟩,
    mem_allPersistentEntries.mpr ⟨by simp, hpy⟩⟩

/-- Claim C3 (counterexample): two distinct records sharing canonical host
and path length tie under the serialization order, and the stable sort then
keeps their insertion order, so encoding the same record set inserted in
two different orders produces different bytes. -/
theorem serializationOrderCounterexample :
    renderFile (writeTo ⟨[cexEntryA, cexEntryB]⟩) ≠
      renderFile (writeTo ⟨[cexEntryB, cexEntryA]⟩) := by
  have h1 : allPersistentEntries ⟨[cexEntryA, cexEntryB]⟩ =
      [cexEntryA, cexEntryB] := by decide
  have h2 : allPersistentEntries ⟨[cexEntryB, cexEntryA]⟩ =
      [cexEntryB, cexEntryA] := by decide
  simp only [renderFile, writeTo, h1, h2, cexEntryA, cexEntryB, entryToJson,
    List.map]
  simp only [renderJson, renderJsonList, renderJsonFields]
  decide

/-- Claim C3 (amended): when no two distinct records of the set share both
canonical group key and path length, encoding the set from any two
insertion orders produces byte-identical output, the order being canonical
group key ascending then path length ascending; and the sort is stable in
that re-sorting already-serialized output never reorders it. -/
theorem serializationDeterministicOrder :
    (∀ es1 es2 : List entry, es1.Perm es2 →
        es1.Pairwise (fun a b => sortKey a ≠ sortKey b) →
        renderFile (writeTo ⟨es1⟩) = renderFile (writeTo ⟨es2⟩))
    ∧ (∀ j : Jar,
        allPersistentEntries ⟨allPersistentEntries j⟩ =
          allPersistentEntries j) := by
  constructor
  · intro es1 es2 hperm hkeys
    have hs : List.insertionSort entryLE (es1.filter (fun e => e.Persistent)) =
        List.insertionSort entryLE (es2.filter (fun e => e.Persistent)) := by
      apply sorted_perm_nodupkey_eq
      · exact (List.perm_insertionSort _ _).trans
          ((hperm.filter _).trans (List.perm_insertionSort _ _).symm)
      · exact List.sorted_insertionSort entryLE _
      · exact List.sorted_insertionSort entryLE _
      · have h1 : (es1.filter (fun e => e.Persistent)).Pairwise
            (fun a b => sortKey a ≠ sortKey b) :=
          hkeys.sublist (List.filter_sublist es1)
        exact ((List.perm_insertionSort entryLE _).pairwise_iff
          (fun h => Ne.symm h)).mpr h1
    unfold renderFile writeTo allPersistentEntries
    rw [hs]
  · intro j
    have hall : (allPersistentEntries j).filter (fun e => e.Persistent) =
        allPersistentEntries j :=
      List.filter_eq_self.mpr (fun e he => (mem_allPersistentEntries.mp he).2)
    show List.insertionSort entryLE _ = _
    rw [hall]
    exact (List.sorted_insertionSort entryLE _).insertionSort_eq

/-! ### Lock name derivation and the retry loop -/

theorem stripNonAlnum_data (s : String) :
    (stripNonAlnum s).data = s.data.filter isAlnumChar := rfl

theorem stripNonAlnum_dataL (a b : String) :
    (stripNonAlnum ("L" ++ a ++ b)).data =
      'L' :: (a.data ++ b.data).filter isAlnumChar := by
  rw [stripNonAlnum_data]
  have h : ("L" ++ a ++ b).data = 'L' :: (a.data ++ b.data) := by
    rw [String.data_append, String.data_append]
    rfl
  rw [h, List.filter_cons, if_pos (show isAlnumChar 'L' = true from rfl)]

/-- Claim C6: `lockNameFromPath` is a pure function failing with the
invalid-input error on the empty path; on any non-empty path it returns
`L`, then the first 29 characters of the URL-safe base64 encoding of the
SHA-256 hash of the path, then the last 10 characters of the path, with
all non-alphanumeric characters stripped — so the result is non-empty,
all-alphanumeric, and begins with the letter `L`. -/
theorem lockNameDerivation :
    lockNameFromPath "" = .error "path cannot be empty"
    ∧ ∀ p : String, p ≠ "" → ∃ s : String,
        lockNameFromPath p = .ok s
        ∧ s = stripNonAlnum ("L" ++
            String.mk ((base64urlEncode (sha256Bytes (stringBytes p))).take 29) ++
            (if 10 < p.length then p.drop (p.length - 10) else p))
        ∧ s ≠ ""
        ∧ (∀ c ∈ s.data, isAlnumChar c = true)
        ∧ s.data.head? = some 'L' := by
  refine ⟨rfl, ?_⟩
  intro p hp
  refine ⟨_, ?_, rfl, ?_, ?_, ?_⟩
  · simp [lockNameFromPath, hp]
  · intro h
    have h2 := congrArg String.data h
    rw [stripNonAlnum_dataL] at h2
    exact absurd h2 (by simp)
  · intro c hc
    rw [stripNonAlnum_dataL] at hc
    rcases List.mem_cons.mp hc with rfl | hc
    · rfl
    · exact (List.mem_filter.mp hc).2
  · rw [stripNonAlnum_dataL]
    rfl

/-- The retry loop gives up strictly after the deadline but within one
attempt duration of it, every attempt starts at or before the deadline,
and the loop makes a final attempt starting at or just before the
deadline. -/
theorem lockFileLoop_gives_up (d : Nat) (hd : 1 ≤ d) :
    ∀ fuel retry elapsed : Nat, elapsed ≤ maxRetryDuration →
      maxRetryDuration + 2 ≤ fuel + elapsed →
      ∃ T starts, lockFileLoop d retry elapsed fuel = some (T, starts)
        ∧ maxRetryDuration < T ∧ T ≤ maxRetryDuration + d
        ∧ (∀ t ∈ starts, t ≤ maxRetryDuration) ∧ (T - d) ∈ starts := by
  intro fuel
  induction fuel with
  | zero => intro retry elapsed h1 h2; omega
  | succ fuel ih =>
      intro retry elapsed h1 h2
      by_cases hc : maxRetryDuration < elapsed + d
      · refine ⟨elapsed + d, [elapsed], ?_, hc, by omega, ?_, ?_⟩
        · unfold lockFileLoop
          rw [if_pos hc]
        · intro t ht
          rw [List.mem_singleton] at ht
          omega
        · simp
      · push_neg at hc
        set retry2 := if maxRetryDuration - (elapsed + d) < retry then
            maxRetryDuration - (elapsed + d) else retry with hr2
        have hr2le : retry2 ≤ maxRetryDuration - (elapsed + d) := by
          rw [hr2]; split <;> omega
        obtain ⟨T, starts, heq, hT1, hT2, hall, hmem⟩ :=
          ih retry2 (elapsed + d + retry2) (by omega) (by omega)
        refine ⟨T, elapsed :: starts, ?_, hT1, hT2, ?_,
          List.mem_cons_of_mem _ hmem⟩
        · unfold lockFileLoop
          rw [if_neg (by omega)]
          show (match lockFileLoop d retry2 (elapsed + d + retry2) fuel with
            | Option.none => none
            | some (T2, s2) => some (T2, elapsed :: s2)) = _
          rw [heq]
        · intro t ht
          rcases List.mem_cons.mp ht with rfl | ht
          · exact h1
          · exact hall t ht

/-- Claim C7: with the advisory lock permanently held — every `Acquire`
attempt failing after `d` microseconds — the retry loop of `lockFile`
returns the timeout error no earlier than the 2-second `maxRetryDuration`
and no later than one attempt duration past it; every attempt starts at or
before the deadline (the sleep interval is shrunk so the loop never
oversleeps past the timeout), and the final attempt starts at or just
before the deadline. -/
theorem lockRetryBound (d fuel : Nat) (hd : 1 ≤ d)
    (hfuel : maxRetryDuration + 2 ≤ fuel) :
    ∃ T starts, lockFileLoop d initialRetry 0 fuel = some (T, starts)
      ∧ maxRetryDuration < T ∧ T ≤ maxRetryDuration + d
      ∧ (∀ t ∈ starts, t ≤ maxRetryDuration) ∧ (T - d) ∈ starts :=
  lockFileLoop_gives_up d hd fuel initialRetry 0 (by omega) (by omega)

/-! ### Witnesses -/

/-- Witness for the merge-no-loss theorem at two concrete records. -/
theorem saveMergeNoLossWitness :
    let f1 := (save ⟨[cexEntryA]⟩ none 0).2
    let jB := ((load ⟨[]⟩ (some f1)).1).merge [cexEntryB]
    let f2 := (save jB (some f1) 0).2
    cexEntryA ∈ fileRecords f2 ∧ cexEntryB ∈ fileRecords f2 :=
  saveMergeNoLoss cexEntryA cexEntryB 0 0 rfl rfl (by decide) (by decide)
    (by decide) (by decide)

/-- Witness for the round-trip theorem at a one-record jar. -/
theorem saveLoadRoundTripWitness :
    ∃ l : List entry,
      load ⟨[]⟩ (some (save ⟨[cexEntryA]⟩ none 0).2) = (⟨l⟩, none)
      ∧ l.Perm [cexEntryA] :=
  saveLoadRoundTrip [cexEntryA] 0 (by decide) (by decide) (by decide)

/-- Witness for the amended determinism theorem at two records with
distinct sort keys inserted in both orders. -/
theorem serializationDeterministicOrderWitness :
    renderFile (writeTo ⟨[wEntryA, wEntryB]⟩) =
      renderFile (writeTo ⟨[wEntryB, wEntryA]⟩) :=
  serializationDeterministicOrder.1 [wEntryA, wEntryB] [wEntryB, wEntryA]
    (List.Perm.swap wEntryB wEntryA []) (by decide)

/-- Witness for the expiry-at-save theorem: a record expiring at 1 is
absent when saving at 2 and present when saving at 0. -/
theorem saveExpiryAtSaveWitness :
    cexEntryA ∉ fileRecords (save ⟨[cexEntryA]⟩ none 2).2
    ∧ cexEntryA ∈ fileRecords (save ⟨[cexEntryA]⟩ none 0).2 :=
  ⟨(saveExpiryAtSave [cexEntryA] 2 cexEntryA).1 none (by decide),
   (saveExpiryAtSave [cexEntryA] 0 cexEntryA).2 (by decide) rfl (by decide)⟩

/-- Witness for the lock-name theorem at the path `a`. -/
theorem lockNameDerivationWitness :
    ∃ s : String,
      lockNameFromPath "a" = .ok s
      ∧ s = stripNonAlnum ("L" ++
          String.mk ((base64urlEncode (sha256Bytes (stringBytes "a"))).take 29) ++
          (if 10 < ("a" : String).length then
            ("a" : String).drop (("a" : String).length - 10) else "a"))
      ∧ s ≠ ""
      ∧ (∀ c ∈ s.data, isAlnumChar c = true)
      ∧ s.data.head? = some 'L' :=
  lockNameDerivation.2 "a" (by decide)

/-- Witness for the retry-bound theorem with 1µs attempts and enough
fuel. -/
theorem lockRetryBoundWitness :
    ∃ T starts, lockFileLoop 1 initialRetry 0 2000002 = some (T, starts)
      ∧ maxRetryDuration < T ∧ T ≤ maxRetryDuration + 1
      ∧ (∀ t ∈ starts, t ≤ maxRetryDuration) ∧ (T - 1) ∈ starts :=
  lockRetryBound 1 2000002 (by decide) (by decide)

/-- Witness for the decode-tiering theorem at the foreign JSON value 3. -/
theorem decodeTieringAsymmetryWitness :
    Jar.mergeFrom ⟨[]⟩ (.json (.num 3)) = (⟨[]⟩, none) :=
  (decodeTieringAsymmetry ⟨[]⟩ 0).2.1 (.num 3) rfl

/-- Witness for the load-atomicity theorem over a corrupt file. -/
theorem loadDecodeErrorAtomicWitness :
    (load ⟨[cexEntryA]⟩ (some .malformed)).1 = ⟨[cexEntryA]⟩ :=
  (loadDecodeErrorAtomic ⟨[cexEntryA]⟩).2 (some .malformed) "invalid JSON" rfl

end Cookiejar

